import Mathlib

/-!
A shallow embedding of the session store in `redistore.go` (package
`redistore`).  Go values of type `interface\x7b\x7d` that can appear in a
session payload are modelled by the scalar type `GoVal`; byte strings
produced by the serializers are modelled by `Bytes`, which records the
structure the bytes denote; the redis connection, the securecookie codec
machinery, the random ID generator and the clock are external
collaborators and are modelled as oracles in `World`.  Each public
operation of the store returns, besides its Go results, the trace of
redis commands it issued and the list of cookies it set on the response,
so that "performs no remote write" and "attaches no cookie" become
statements about those traces.
-/

deriving instance DecidableEq for Except

namespace Redistore

/-- A Go interface value as it can occur in a session payload
(`map[interface\x7b\x7d]interface\x7b\x7d`).  The embedding models the
JSON-representable scalars; `vNull` is the nil interface (which is also
what `encoding/json` produces for JSON `null`).  `vFloat` carries a
rational: it stands for a Go `float64`, kept exact here so that the
JSON type-widening `int -> float64` is visible without floating-point
arithmetic. -/
inductive GoVal where
  | vNull
  | vBool (b : Bool)
  | vInt (n : Int)
  | vFloat (q : Rat)
  | vStr (s : String)
  deriving DecidableEq, Repr

/-- Whether a Go interface value is a `string` (the key check in
`JSONSerializer.Serialize`). -/
def GoVal.isString : GoVal → Bool
  | .vStr _ => true
  | _ => false

/-- A session payload: `map[interface\x7b\x7d]interface\x7b\x7d`, modelled
as an association list whose order is the (fixed) iteration order. -/
abbrev GoKV := List (GoVal × GoVal)

/-- Go map read `m[k]`, without the `ok` flag: a missing key yields the
nil interface. -/
def mapGet {α β : Type} [DecidableEq α] : List (α × β) → α → Option β
  | [], _ => none
  | (k, v) :: rest, k' => if k = k' then some v else mapGet rest k'

/-- Go map write `m[k] = v`: overwrites the binding in place, appends a
new binding otherwise. -/
def mapSet {α β : Type} [DecidableEq α] : List (α × β) → α → β → List (α × β)
  | [], k, v => [(k, v)]
  | (k', v') :: rest, k, v =>
    if k' = k then (k, v) :: rest else (k', v') :: mapSet rest k v

/-- The errors the embedded operations can surface.  `tooBig` is
`errors.New ("SessionStore: the value to store is too big")`;
`nonStringKey` is the error built by `JSONSerializer.Serialize`;
`unmarshalFailed` models an `encoding/json` or `encoding/gob` decode
failure; `transport` carries a redis/transport error message;
`decodeFailed` a `securecookie.DecodeMulti` failure and `encodeFailed`
an `EncodeMulti` failure. -/
inductive GoErr where
  | tooBig
  | nonStringKey (k : GoVal)
  | unmarshalFailed
  | transport (m : String)
  | decodeFailed (m : String)
  | encodeFailed (m : String)
  deriving DecidableEq, Repr

/-- A JSON scalar value, as produced by `json.Marshal` for a `GoVal`. -/
inductive Json where
  | null
  | bool (b : Bool)
  | num (q : Rat)
  | str (s : String)
  deriving DecidableEq, Repr

/-- `json.Marshal` on one payload value. -/
def marshalVal : GoVal → Json
  | .vNull => .null
  | .vBool b => .bool b
  | .vInt n => .num n
  | .vFloat q => .num q
  | .vStr s => .str s

/-- `json.Unmarshal` of one JSON value into an `interface\x7b\x7d`
destination: every JSON number becomes a `float64`. -/
def unmarshalVal : Json → GoVal
  | .null => .vNull
  | .bool b => .vBool b
  | .num q => .vFloat q
  | .str s => .vStr s

/-- The JSON type-widening a Go value undergoes in a
marshal/unmarshal round trip through `interface\x7b\x7d`: integers come
back as `float64`, everything else survives unchanged. -/
def widen : GoVal → GoVal
  | .vInt n => .vFloat n
  | v => v

/-- Rendering of a JSON scalar, for byte lengths.  String escaping of
quotes and control characters is elided (none of the concrete payloads
used here need it); numbers produced by the store are integral. -/
def Json.render : Json → String
  | .null => "null"
  | .bool b => if b then "true" else "false"
  | .num q => if q.den = 1 then toString q.num else toString q.num ++ "/" ++ toString q.den
  | .str s => "\"" ++ s ++ "\""

/-- Byte-wise string order (`charListLe` on the character lists), used to
mirror `json.Marshal` sorting the keys of a map in its output.  Written
out because the library order on `String` does not reduce in the
kernel. -/
def charListLe : List Char → List Char → Bool
  | [], _ => true
  | _ :: _, [] => false
  | a :: as, b :: bs =>
    if a.toNat < b.toNat then true
    else if b.toNat < a.toNat then false
    else charListLe as bs

/-- One insertion step of the key sort. -/
def insortField (p : String × Json) : List (String × Json) → List (String × Json)
  | [] => [p]
  | q :: rest => if charListLe p.1.data q.1.data then p :: q :: rest else q :: insortField p rest

/-- Sorting of the fields of a JSON object by key, as `json.Marshal`
does for Go maps. -/
def sortFields : List (String × Json) → List (String × Json)
  | [] => []
  | p :: rest => insortField p (sortFields rest)

/-- One `"key":value` fragment of a rendered JSON object. -/
def renderField (p : String × Json) : String :=
  "\"" ++ p.1 ++ "\":" ++ p.2.render

/-- The text `json.Marshal` produces for a `map[string]interface\x7b\x7d`:
the fields, sorted by key, wrapped in braces. -/
def renderObj (o : List (String × Json)) : String :=
  "\x7b" ++ String.intercalate "," ((sortFields o).map renderField) ++ "\x7d"

/-- A modelled byte length for one gob-encoded value (the exact gob
framing is not reproduced; no claim depends on gob byte counts). -/
def goValByteLen : GoVal → Nat
  | .vNull => 1
  | .vBool _ => 1
  | .vInt _ => 8
  | .vFloat _ => 8
  | .vStr s => 2 + s.length

/-- The byte strings handled by the store.  A byte string is modelled by
the structure it denotes: `json o` is the `json.Marshal` rendering of
the object `o`, `gob m` the `encoding/gob` encoding of the payload map
`m`, and `raw s` any other byte string (which neither serializer can
decode into a payload map). -/
inductive Bytes where
  | json (o : List (String × Json))
  | gob (m : GoKV)
  | raw (s : String)
  deriving DecidableEq, Repr

/-- `len(b)` of a modelled byte string. -/
def Bytes.len : Bytes → Nat
  | .json o => (renderObj o).length
  | .gob m => 8 + (m.map fun p => goValByteLen p.1 + goValByteLen p.2).sum
  | .raw s => s.length

/-- The loop at the head of `JSONSerializer.Serialize`: copy
`ss.Values` into a `map[string]interface\x7b\x7d`, failing on the first
key that is not a Go string. -/
def buildStringMap : GoKV → List (String × GoVal) → Except GoErr (List (String × GoVal))
  | [], m => .ok m
  | (k, v) :: rest, m =>
    match k with
    | .vStr ks => buildStringMap rest (mapSet m ks v)
    | _ => .error (.nonStringKey k)

/-- `JSONSerializer.SerializeData`: `json.Marshal` of a string-keyed
map. -/
def JSONSerializer.SerializeData (data : List (String × GoVal)) : Bytes :=
  .json (data.map fun p => (p.1, marshalVal p.2))

/-- `JSONSerializer.Serialize`: build the string-keyed copy of the
session payload (erroring on a non-string key), then marshal it. -/
def JSONSerializer.Serialize (values : GoKV) : Except GoErr Bytes :=
  (buildStringMap values []).map JSONSerializer.SerializeData

/-- `JSONSerializer.DeserializeData`: `json.Unmarshal` into a fresh
`map[string]interface\x7b\x7d`.  Only bytes that are a JSON object
decode; later duplicate keys overwrite earlier ones, as in a Go map. -/
def JSONSerializer.DeserializeData : Bytes → Except GoErr (List (String × GoVal))
  | .json o => .ok (o.foldl (fun m p => mapSet m p.1 (unmarshalVal p.2)) [])
  | _ => .error .unmarshalFailed

/-- `JSONSerializer.Deserialize`: unmarshal the bytes, then merge every
decoded entry into the session's payload (the session's existing
entries are kept unless overwritten). -/
def JSONSerializer.Deserialize (d : Bytes) (values : GoKV) : Except GoErr GoKV :=
  match JSONSerializer.DeserializeData d with
  | .error e => .error e
  | .ok m => .ok (m.foldl (fun vs p => mapSet vs (.vStr p.1) p.2) values)

/-- `GobSerializer.Serialize`: `gob.Encode` of the payload map.  The gob
encoding of the modelled value universe always succeeds and is kept in
structured form (`Bytes.gob`), which makes its documented exact-decode
contract explicit. -/
def GobSerializer.Serialize (values : GoKV) : Except GoErr Bytes :=
  .ok (.gob values)

/-- `GobSerializer.Deserialize`: `gob.Decode` replaces the session's
payload map wholesale (it decodes into `&ss.Values`). -/
def GobSerializer.Deserialize (d : Bytes) (_values : GoKV) : Except GoErr GoKV :=
  match d with
  | .gob m => .ok m
  | _ => .error .unmarshalFailed

/-- The `SessionSerializer` interface with its two implementations. -/
inductive SessionSerializer where
  | json
  | gob
  deriving DecidableEq, Repr

/-- Dispatch of `Serialize` over the interface. -/
def SessionSerializer.Serialize : SessionSerializer → GoKV → Except GoErr Bytes
  | .json, values => JSONSerializer.Serialize values
  | .gob, values => GobSerializer.Serialize values

/-- Dispatch of `Deserialize` over the interface. -/
def SessionSerializer.Deserialize : SessionSerializer → Bytes → GoKV → Except GoErr GoKV
  | .json, d, values => JSONSerializer.Deserialize d values
  | .gob, d, values => GobSerializer.Deserialize d values

/-- `sessions.Options`: the cookie attributes the store configures
(`Path` and `MaxAge` are the ones it touches). -/
structure SessionOptions where
  Path : String
  MaxAge : Int
  deriving DecidableEq, Repr

/-- A `sessions.Session` as far as this store reads and writes it. -/
structure Session where
  ID : String
  Name : String
  Values : GoKV
  Options : SessionOptions
  IsNew : Bool
  deriving DecidableEq, Repr

/-- A `securecookie.Codec` in the store's codec list: either a
`*securecookie.SecureCookie` (whose enforced max-age the store can
reach through the type assertion in `SetMaxAge`) or any other
implementation of the interface, carrying whatever max-age it enforces
internally. -/
inductive Codec where
  | secureCookie (maxAge : Int)
  | other (maxAge : Int)
  deriving DecidableEq, Repr

/-- The max-age a codec currently enforces. -/
def Codec.maxAgeOf : Codec → Int
  | .secureCookie a => a
  | .other a => a

/-- The envelope placed in the signed cookie (`SessionInfo` in the
source): the session ID and the creation-timestamp value
(`CreateTime : interface\x7b\x7d`; `GoVal.vNull` is the nil
interface). -/
structure SessionInfo where
  ID : String
  CreateTime : GoVal
  deriving DecidableEq, Repr

/-- `RediStore`. -/
structure RediStore where
  Codecs : List Codec
  Options : SessionOptions
  DefaultMaxAge : Int
  maxLength : Int
  keyPrefix : String
  serializer : SessionSerializer
  deriving DecidableEq, Repr

/-- `sessionExpire = 86400 * 3000`. -/
def sessionExpire : Int := 86400 * 3000

/-- `NewRedisStoreWithPool`: the redis pool itself lives in `World`, so
only the codec list built by `securecookie.CodecsFromPairs` is taken
here. -/
def NewRedisStoreWithPool (codecs : List Codec) : RediStore :=
  { Codecs := codecs
    Options := { Path := "/", MaxAge := sessionExpire }
    DefaultMaxAge := 60 * 20
    maxLength := 4096
    keyPrefix := "session_"
    serializer := .json }

/-- `SetMaxLength`: only a non-negative argument is stored. -/
def RediStore.SetMaxLength (s : RediStore) (l : Int) : RediStore :=
  if l ≥ 0 then { s with maxLength := l } else s

/-- `SetKeyPrefix`. -/
def RediStore.SetKeyPrefix (s : RediStore) (p : String) : RediStore :=
  { s with keyPrefix := p }

/-- `SetSerializer`. -/
def RediStore.SetSerializer (s : RediStore) (ss : SessionSerializer) : RediStore :=
  { s with serializer := ss }

/-- The body of the loop in `SetMaxAge`: the type assertion
`s.Codecs[i].(*securecookie.SecureCookie)` succeeds only for a
`secureCookie` codec, whose max-age is then set; any other codec is
left alone (the source only prints a message for it). -/
def setCodecMaxAge (v : Int) : Codec → Codec
  | .secureCookie _ => .secureCookie v
  | .other a => .other a

/-- The loop in `SetMaxAge` over the codec list. -/
def setCodecsMaxAge (v : Int) : List Codec → List Codec
  | [] => []
  | c :: rest => setCodecMaxAge v c :: setCodecsMaxAge v rest

/-- `SetMaxAge`: store the value in `Options.MaxAge` and run the codec
update loop. -/
def RediStore.SetMaxAge (s : RediStore) (v : Int) : RediStore :=
  { s with Options := { s.Options with MaxAge := v }, Codecs := setCodecsMaxAge v s.Codecs }

/-- The reply of a redis `GET`: key absent (`redis.Nil`), bytes, or a
transport error. -/
inductive RedisReply where
  | notFound
  | found (b : Bytes)
  | fail (m : String)
  deriving DecidableEq, Repr

/-- The state of the external collaborators for one run: the redis
backend (`Pool`), the securecookie oracle for the codec list, the
random session ID `GenerateRandomKey` would produce (base32-encoded and
trimmed) and the formatted current time
`time.Now().Format ("20060102150405")`. -/
structure World where
  redisGet : String → RedisReply
  redisSet : String → Bytes → Int → Option String
  redisDel : String → Option String
  decodeOne : Codec → String → String → Except String SessionInfo
  encodeWith : List Codec → String → SessionInfo → Except String String
  genID : String
  nowStamp : String

/-- `securecookie.DecodeMulti` (external collaborator): try the codecs
in order, succeed on the first that authenticates, fail only when every
codec fails. -/
def decodeMulti (w : World) (name value : String) : List Codec → Except GoErr SessionInfo
  | [] => .error (.decodeFailed "securecookie: the value is not valid")
  | c :: rest =>
    match w.decodeOne c name value with
    | .ok info => .ok info
    | .error _ => decodeMulti w name value rest

/-- `securecookie.EncodeMulti` (external collaborator). -/
def encodeMulti (w : World) (name : String) (info : SessionInfo) (codecs : List Codec) :
    Except GoErr String :=
  match w.encodeWith codecs name info with
  | .ok t => .ok t
  | .error m => .error (.encodeFailed m)

/-- A redis command issued by the store, as recorded in an operation's
trace. -/
inductive Effect where
  | get (key : String)
  | set (key : String) (b : Bytes) (ttlSeconds : Int)
  | del (key : String)
  deriving DecidableEq, Repr

/-- An `http.SetCookie` call on the response, with the fields
`sessions.NewCookie` fills from its arguments and options. -/
structure SetCookie where
  name : String
  value : String
  path : String
  maxAge : Int
  deriving DecidableEq, Repr

/-- `sessions.NewCookie (name, value, options)`. -/
def newCookie (name value : String) (o : SessionOptions) : SetCookie :=
  { name := name, value := value, path := o.Path, maxAge := o.MaxAge }

/-- An inbound `http.Request`, reduced to `r.Cookie (name)`: the value
of the request cookie of that name, when one is present. -/
structure Request where
  cookie : String → Option String

/-- `RediStore.load`: `GET` the record, distinguish `redis.Nil` from a
transport error, and deserialize found bytes into the session's
payload.  Returns `((ok, err), session after the call, trace)`; on a
deserialize error the source still reports `ok = true` (the record
existed) together with the error, and the payload is unchanged. -/
def RediStore.load (s : RediStore) (w : World) (session : Session) :
    (Bool × Option GoErr) × Session × List Effect :=
  let key := s.keyPrefix ++ session.ID
  match w.redisGet key with
  | .notFound => ((false, none), session, [.get key])
  | .fail m => ((false, some (.transport m)), session, [.get key])
  | .found b =>
    match s.serializer.Deserialize b session.Values with
    | .ok vals => ((true, none), { session with Values := vals }, [.get key])
    | .error e => ((true, some e), session, [.get key])

/-- The result of `RediStore.New`: the session, the returned error, and
the redis trace. -/
structure NewOut where
  session : Session
  err : Option GoErr
  trace : List Effect
  deriving Repr

/-- `RediStore.New`: build a fresh session with a copy of the store's
options; if the request carries a cookie of this name that some codec
decodes, load the record under the envelope's ID; a loaded record is
kept only when its `created_time` entry equals the envelope's
`CreateTime` (a missing entry reads as the nil interface), and is
discarded — empty payload, `IsNew = true` — otherwise. -/
def RediStore.New (s : RediStore) (w : World) (r : Request) (name : String) : NewOut :=
  let session : Session :=
    { ID := "", Name := name, Values := [], Options := s.Options, IsNew := true }
  match r.cookie name with
  | none => { session := session, err := none, trace := [] }
  | some cv =>
    match decodeMulti w name cv s.Codecs with
    | .error e => { session := session, err := some e, trace := [] }
    | .ok sessionInfo =>
      let session := { session with ID := sessionInfo.ID }
      match s.load w session with
      | ((ok, err), session, tr) =>
        if err = none ∧ ok = true then
          let createdTimeV := (mapGet session.Values (.vStr "created_time")).getD .vNull
          if createdTimeV ≠ sessionInfo.CreateTime then
            { session := { session with Values := [], IsNew := true }, err := err, trace := tr }
          else
            { session := { session with IsNew := false }, err := err, trace := tr }
        else
          { session := { session with IsNew := !(err = none ∧ ok = true) }, err := err, trace := tr }

/-- `RediStore.delete` (the lower-case helper): `DEL` the record's
key. -/
def RediStore.delete (s : RediStore) (w : World) (session : Session) :
    Option GoErr × List Effect :=
  let key := s.keyPrefix ++ session.ID
  ((w.redisDel key).map .transport, [.del key])

/-- `RediStore.save` (the lower-case helper): serialize the payload,
reject it when the nonzero `maxLength` is exceeded, then `SET` the
record with the session's max-age as TTL — or `DefaultMaxAge` when the
session's max-age is `0`. -/
def RediStore.save (s : RediStore) (w : World) (session : Session) :
    Option GoErr × List Effect :=
  match s.serializer.Serialize session.Values with
  | .error e => (some e, [])
  | .ok b =>
    if s.maxLength ≠ 0 ∧ (Bytes.len b : Int) > s.maxLength then
      (some .tooBig, [])
    else
      let age := session.Options.MaxAge
      let age := if age = 0 then s.DefaultMaxAge else age
      let key := s.keyPrefix ++ session.ID
      ((w.redisSet key b age).map .transport, [.set key b age])

/-- The result of `RediStore.Save` and `RediStore.Delete`: the returned
error, the session as the call leaves it, the redis trace, and the
cookies set on the response. -/
structure SaveOut where
  err : Option GoErr
  session : Session
  trace : List Effect
  cookies : List SetCookie
  deriving Repr

/-- The common tail of the `maxAge > 0` branch of `RediStore.Save`:
call `save`, then encode the envelope and set the cookie; any failure
returns before the cookie is set. -/
def RediStore.saveTail (s : RediStore) (w : World) (session : Session) (createdTime : GoVal) :
    SaveOut :=
  match s.save w session with
  | (some e, tr) => { err := some e, session := session, trace := tr, cookies := [] }
  | (none, tr) =>
    match encodeMulti w session.Name ⟨session.ID, createdTime⟩ s.Codecs with
    | .error e => { err := some e, session := session, trace := tr, cookies := [] }
    | .ok encoded =>
      { err := none, session := session, trace := tr
        cookies := [newCookie session.Name encoded session.Options] }

/-- `RediStore.Save`: a session whose max-age is non-positive is marked
for deletion — its record is deleted (a failure there returns before
any cookie is touched) and the cookie is rewritten empty with the
session's options.  Otherwise an absent ID is generated, a missing
`created_time` entry is stamped with the current time, the record is
saved, and only after a successful save and envelope encode is the
cookie set. -/
def RediStore.Save (s : RediStore) (w : World) (session : Session) : SaveOut :=
  if session.Options.MaxAge ≤ 0 then
    match s.delete w session with
    | (some e, tr) => { err := some e, session := session, trace := tr, cookies := [] }
    | (none, tr) =>
      { err := none, session := session, trace := tr
        cookies := [newCookie session.Name "" session.Options] }
  else
    let session := if session.ID = "" then { session with ID := w.genID } else session
    match mapGet session.Values (.vStr "created_time") with
    | some createdTime => RediStore.saveTail s w session createdTime
    | none =>
      let createdTime := GoVal.vStr w.nowStamp
      let session :=
        { session with Values := mapSet session.Values (.vStr "created_time") createdTime }
      RediStore.saveTail s w session createdTime

/-- `RediStore.Delete` (the deprecated explicit entry point): `DEL` the
record — returning at once on a failure — then set an expired cookie
(the session's options with max-age forced to `-1`) and clear every
entry of the in-memory payload. -/
def RediStore.Delete (s : RediStore) (w : World) (session : Session) : SaveOut :=
  let key := s.keyPrefix ++ session.ID
  match w.redisDel key with
  | some m => { err := some (.transport m), session := session, trace := [.del key], cookies := [] }
  | none =>
    let options := { session.Options with MaxAge := -1 }
    { err := none, session := { session with Values := [] }, trace := [.del key]
      cookies := [newCookie session.Name "" options] }

/-! ### Association-list map lemmas -/

theorem mapGet_mapSet_self {α β : Type} [DecidableEq α] (m : List (α × β)) (k : α) (v : β) :
    mapGet (mapSet m k v) k = some v := by
  induction m with
  | nil => simp [mapGet, mapSet]
  | cons p rest ih =>
    by_cases h : p.1 = k
    · simp [mapGet, mapSet, h]
    · simp [mapGet, mapSet, h, ih]

theorem mapGet_mapSet_ne {α β : Type} [DecidableEq α] (m : List (α × β)) (k k' : α) (v : β)
    (h : k ≠ k') : mapGet (mapSet m k v) k' = mapGet m k' := by
  induction m with
  | nil => simp [mapGet, mapSet, h]
  | cons p rest ih =>
    by_cases hp : p.1 = k
    · simp [mapGet, mapSet, hp, h]
    · simp only [mapSet, if_neg hp]
      by_cases hp' : p.1 = k'
      · simp [mapGet, hp']
      · simp [mapGet, hp', ih]

theorem mapGet_eq_none {α β : Type} [DecidableEq α] (m : List (α × β)) (k : α)
    (h : ∀ p ∈ m, p.1 ≠ k) : mapGet m k = none := by
  induction m with
  | nil => rfl
  | cons p rest ih =>
    simp only [mapGet, if_neg (h p (by simp))]
    exact ih fun q hq => h q (by simp [hq])

theorem mem_keys_mapSet {α β : Type} [DecidableEq α] (m : List (α × β)) (k a : α) (v : β)
    (h : a ∈ (mapSet m k v).map Prod.fst) : a ∈ m.map Prod.fst ∨ a = k := by
  induction m with
  | nil => simpa [mapSet] using h
  | cons p rest ih =>
    by_cases hp : p.1 = k
    · simp only [mapSet, if_pos hp] at h
      rcases (by simpa using h) with h | h
      · exact .inr h
      · exact .inl (by simp [h])
    · simp only [mapSet, if_neg hp] at h
      rcases (by simpa using h) with h | h
      · exact .inl (by simp [h])
      · rcases ih (by simpa using h) with h' | h'
        · exact .inl (by simp; right; simpa using h')
        · exact .inr h'

theorem keys_nodup_mapSet {α β : Type} [DecidableEq α] (m : List (α × β)) (k : α) (v : β)
    (h : (m.map Prod.fst).Nodup) : ((mapSet m k v).map Prod.fst).Nodup := by
  induction m with
  | nil => simp [mapSet]
  | cons p rest ih =>
    simp only [List.map_cons, List.nodup_cons] at h
    by_cases hp : p.1 = k
    · subst hp
      simpa [mapSet, List.nodup_cons] using h
    · simp only [mapSet, if_neg hp, List.map_cons, List.nodup_cons]
      refine ⟨fun hmem => ?_, ih h.2⟩
      rcases mem_keys_mapSet rest k p.1 v hmem with h' | h'
      · exact h.1 h'
      · exact hp h'

/-- Looking up through a left fold of Go map writes with transformed
keys: under distinct source keys, the fold behaves as the source list,
falling back to the initial map for keys the list does not bind. -/
theorem foldl_mapSet_lookup {β κ : Type} [DecidableEq κ] (g : String → κ)
    (hg : Function.Injective g) :
    ∀ (l : List (String × β)) (init : List (κ × β)) (ks : String),
      (l.map Prod.fst).Nodup →
      mapGet (l.foldl (fun m p => mapSet m (g p.1) p.2) init) (g ks) =
        ((mapGet l ks).rec (mapGet init (g ks)) fun v => some v : Option β) := by
  intro l
  induction l with
  | nil => intro init ks _; rfl
  | cons p rest ih =>
    intro init ks hnd
    simp only [List.map_cons, List.nodup_cons] at hnd
    simp only [List.foldl_cons]
    rw [ih (mapSet init (g p.1) p.2) ks hnd.2]
    by_cases hk : p.1 = ks
    · subst hk
      have hrest : mapGet rest p.1 = none :=
        mapGet_eq_none rest p.1 fun q hq h => hnd.1 (h ▸ List.mem_map_of_mem Prod.fst hq)
      simp [mapGet, hrest, mapGet_mapSet_self]
    · have : g p.1 ≠ g ks := fun h => hk (hg h)
      simp [mapGet, hk, mapGet_mapSet_ne init (g p.1) (g ks) p.2 this]

/-- A fold of Go map writes never binds a key outside the range of the
key transform. -/
theorem foldl_mapSet_lookup_outside {β κ : Type} [DecidableEq κ] (g : String → κ) :
    ∀ (l : List (String × β)) (init : List (κ × β)) (k : κ),
      (∀ x, g x ≠ k) →
      mapGet (l.foldl (fun m p => mapSet m (g p.1) p.2) init) k = mapGet init k := by
  intro l
  induction l with
  | nil => intro init k _; rfl
  | cons p rest ih =>
    intro init k hout
    simp only [List.foldl_cons]
    rw [ih (mapSet init (g p.1) p.2) k hout,
      mapGet_mapSet_ne init (g p.1) k p.2 (hout p.1)]

theorem mapGet_map_values {β γ : Type} (f : β → γ) :
    ∀ (l : List (String × β)) (ks : String),
      mapGet (l.map fun p => (p.1, f p.2)) ks = (mapGet l ks).map f := by
  intro l
  induction l with
  | nil => intro ks; rfl
  | cons p rest ih =>
    intro ks
    by_cases h : p.1 = ks
    · simp [mapGet, h]
    · simp [mapGet, h, ih]

/-! ### Concrete fixtures used by witnesses and counterexamples -/

/-- A store as `NewRedisStoreWithPool` builds it, with the single codec
`CodecsFromPairs` would produce for one key pair. -/
def storeBase : RediStore := NewRedisStoreWithPool [Codec.secureCookie sessionExpire]

/-- A world whose redis calls all succeed, whose cookie decodes fail and
whose encodes yield the token "tok". -/
def worldOk : World :=
  { redisGet := fun _ => .notFound
    redisSet := fun _ _ _ => none
    redisDel := fun _ => none
    decodeOne := fun _ _ _ => .error "securecookie: the value is not valid"
    encodeWith := fun _ _ _ => .ok "tok"
    genID := "GENID32BYTESBASE32"
    nowStamp := "20260101120000" }

/-- A world like `worldOk` whose redis DEL fails. -/
def worldDelFail : World :=
  { worldOk with redisDel := fun _ => some "redis: connection refused" }

/-! ### C10 -/

/-- C10: `SetMaxLength` ignores a negative argument, a new store starts
at `maxLength = 4096`, and every configuration operation keeps
`maxLength` non-negative. -/
theorem maxLength_never_negative (s : RediStore) (l v : Int) (p : String)
    (ser : SessionSerializer) (cs : List Codec) :
    (l < 0 → s.SetMaxLength l = s) ∧
    (NewRedisStoreWithPool cs).maxLength = 4096 ∧
    (0 ≤ s.maxLength → 0 ≤ (s.SetMaxLength l).maxLength) ∧
    (s.SetMaxAge v).maxLength = s.maxLength ∧
    (s.SetKeyPrefix p).maxLength = s.maxLength ∧
    (s.SetSerializer ser).maxLength = s.maxLength := by
  refine ⟨fun h => ?_, rfl, fun h => ?_, rfl, rfl, rfl⟩
  · unfold RediStore.SetMaxLength
    rw [if_neg (by omega)]
  · unfold RediStore.SetMaxLength
    split
    · simpa using by omega
    · exact h

/-! ### C5 -/

/-- A store holding one codec that is not a `*securecookie.SecureCookie`
(the `Codecs` field is exported, so a caller can install one). -/
def storeForeignCodec : RediStore :=
  { NewRedisStoreWithPool [] with Codecs := [Codec.other 10] }

/-- C5 counterexample: on a store holding a codec that is not a
`*securecookie.SecureCookie`, `SetMaxAge 99` leaves that codec's
enforced max-age at 10, so not every codec is updated. -/
theorem SetMaxAge_skips_foreign_codec :
    (storeForeignCodec.SetMaxAge 99).Options.MaxAge = 99 ∧
    (storeForeignCodec.SetMaxAge 99).Codecs = [Codec.other 10] ∧
    ¬ (∀ c ∈ (storeForeignCodec.SetMaxAge 99).Codecs, c.maxAgeOf = 99) := by
  refine ⟨rfl, rfl, ?_⟩
  intro h
  exact absurd (h (Codec.other 10) (by decide)) (by decide)

/-- C5 (amended): `SetMaxAge v` sets the store's configured max-age to
`v` and walks the codec list updating exactly those codecs that are
`*securecookie.SecureCookie` instances to `v`; a codec of any other
type is left unchanged. -/
theorem SetMaxAge_updates_securecookie_codecs (s : RediStore) (v : Int) :
    (s.SetMaxAge v).Options.MaxAge = v ∧
    (s.SetMaxAge v).Codecs = s.Codecs.map (setCodecMaxAge v) ∧
    (∀ a, setCodecMaxAge v (Codec.secureCookie a) = Codec.secureCookie v) ∧
    (∀ a, setCodecMaxAge v (Codec.other a) = Codec.other a) := by
  refine ⟨rfl, ?_, fun a => rfl, fun a => rfl⟩
  show setCodecsMaxAge v s.Codecs = _
  induction s.Codecs with
  | nil => rfl
  | cons c rest ih => simp [setCodecsMaxAge, ih]

/-! ### C3 -/

/-- A session with a non-empty payload, as `Delete` receives it. -/
def sessDel : Session :=
  { ID := "sid3", Name := "n", Values := [(.vStr "k", .vStr "v")]
    Options := { Path := "/", MaxAge := 100 }, IsNew := false }

/-- C3 counterexample: when the remote DEL fails, `Delete` returns the
transport error before touching the response — no cookie is set and the
in-memory payload is not cleared, contradicting "cookie-clearing is
attempted even when the remote delete returns an error". -/
theorem Delete_del_failure_skips_cookie :
    (storeBase.Delete worldDelFail sessDel).err = some (.transport "redis: connection refused") ∧
    (storeBase.Delete worldDelFail sessDel).cookies = [] ∧
    (storeBase.Delete worldDelFail sessDel).session.Values = [(.vStr "k", .vStr "v")] ∧
    sessDel.Values ≠ [] := by
  exact ⟨rfl, rfl, rfl, by decide⟩

/-- C3 (amended): `Delete` issues the remote DEL; when it succeeds the
response cookie is force-expired (empty value, max-age −1) and every
payload entry is cleared, and when it fails the error is propagated and
neither the cookie rewrite nor the payload clearing is attempted. -/
theorem Delete_full_behavior (s : RediStore) (w : World) (sess : Session) :
    (s.Delete w sess).trace = [.del (s.keyPrefix ++ sess.ID)] ∧
    (∀ m, w.redisDel (s.keyPrefix ++ sess.ID) = some m →
      (s.Delete w sess).err = some (.transport m) ∧
      (s.Delete w sess).cookies = [] ∧
      (s.Delete w sess).session = sess) ∧
    (w.redisDel (s.keyPrefix ++ sess.ID) = none →
      (s.Delete w sess).err = none ∧
      (s.Delete w sess).cookies =
        [{ name := sess.Name, value := "", path := sess.Options.Path, maxAge := -1 }] ∧
      (s.Delete w sess).session.Values = []) := by
  refine ⟨?_, fun m h => ?_, fun h => ?_⟩
  · rcases h : w.redisDel (s.keyPrefix ++ sess.ID) with _ | m <;>
      simp [RediStore.Delete, h]
  · simp [RediStore.Delete, h]
  · simp [RediStore.Delete, h, newCookie]

/-! ### C4 -/

/-- A max-age-0 session already carrying a creation-timestamp entry. -/
def sessZero : Session :=
  { ID := "sid4", Name := "n", Values := [(.vStr "created_time", .vStr "20260101120000")]
    Options := { Path := "/", MaxAge := 0 }, IsNew := false }

/-- The bytes `save` would write for `sessZero`'s payload. -/
def bytesZero : Bytes := .json [("created_time", .str "20260101120000")]

/-- C4: evaluation at the failing input.  For a session whose max-age is
0, `Save` takes the `MaxAge <= 0` deletion branch — the trace is a DEL
and a removal cookie is set — although the helper `save`, which `Save`
never reaches for this session, would have written the record with
`DefaultMaxAge` as TTL exactly as the claim (and the `DefaultMaxAge`
field's own doc comment) describes. -/
theorem Save_maxage_zero_deletes_record :
    sessZero.Options.MaxAge = 0 ∧
    (storeBase.Save worldOk sessZero).trace = [.del "session_sid4"] ∧
    (storeBase.Save worldOk sessZero).err = none ∧
    (storeBase.Save worldOk sessZero).cookies =
      [{ name := "n", value := "", path := "/", maxAge := 0 }] ∧
    (storeBase.save worldOk sessZero).2 =
      [.set "session_sid4" bytesZero storeBase.DefaultMaxAge] := by
  refine ⟨rfl, rfl, rfl, rfl, ?_⟩
  show (storeBase.save worldOk sessZero).2 = [.set "session_sid4" bytesZero 1200]
  decide

/-! ### C8 -/

/-- An empty session with max-age 0. -/
def sessZeroEmpty : Session :=
  { ID := "sid8", Name := "n", Values := [], Options := { Path := "/", MaxAge := 0 }
    IsNew := false }

/-- C8 counterexample: for a session with max-age 0 (which is ≤ 0), the
cookie `Save` sets is built from the session's unmodified options, so
its max-age is 0 — not negative, and the client does not expire it
immediately. -/
theorem Save_maxage_zero_cookie_not_negative :
    sessZeroEmpty.Options.MaxAge ≤ 0 ∧
    (storeBase.Save worldOk sessZeroEmpty).cookies =
      [{ name := "n", value := "", path := "/", maxAge := 0 }] ∧
    ¬ (∀ c ∈ (storeBase.Save worldOk sessZeroEmpty).cookies, c.maxAge < 0) := by
  refine ⟨by decide, rfl, fun h => ?_⟩
  exact absurd (h { name := "n", value := "", path := "/", maxAge := 0 } (by decide)) (by decide)

/-- C8 (amended): for a session with non-positive max-age, `Save`
deletes the remote record (propagating a transport failure, in which
case no cookie is set) and on success sets a cookie with an empty value
and the session's max-age — which is negative exactly when the
session's max-age is negative. -/
theorem Save_nonpositive_maxage_deletes (s : RediStore) (w : World) (sess : Session)
    (hage : sess.Options.MaxAge ≤ 0) :
    (s.Save w sess).trace = [.del (s.keyPrefix ++ sess.ID)] ∧
    (∀ m, w.redisDel (s.keyPrefix ++ sess.ID) = some m →
      (s.Save w sess).err = some (.transport m) ∧ (s.Save w sess).cookies = []) ∧
    (w.redisDel (s.keyPrefix ++ sess.ID) = none →
      (s.Save w sess).err = none ∧
      (s.Save w sess).cookies =
        [{ name := sess.Name, value := "", path := sess.Options.Path
           maxAge := sess.Options.MaxAge }]) ∧
    (sess.Options.MaxAge < 0 → ∀ c ∈ (s.Save w sess).cookies, c.maxAge < 0) := by
  rcases h : w.redisDel (s.keyPrefix ++ sess.ID) with _ | m
  · have hs : s.Save w sess =
        { err := none, session := sess, trace := [.del (s.keyPrefix ++ sess.ID)]
          cookies := [newCookie sess.Name "" sess.Options] } := by
      simp [RediStore.Save, RediStore.delete, hage, h]
    rw [hs]
    refine ⟨rfl, fun m hm => Option.noConfusion hm, fun _ => ⟨rfl, rfl⟩,
      fun hneg c hc => ?_⟩
    rcases List.mem_singleton.mp hc with rfl
    simpa [newCookie] using hneg
  · have hs : s.Save w sess =
        { err := some (.transport m), session := sess
          trace := [.del (s.keyPrefix ++ sess.ID)], cookies := [] } := by
      simp [RediStore.Save, RediStore.delete, hage, h]
    rw [hs]
    refine ⟨rfl, fun m' hm => ?_, fun hn => Option.noConfusion hn, fun _ c hc => by cases hc⟩
    injection hm with hm'
    subst hm'
    exact ⟨rfl, rfl⟩

/-- A session with max-age −1, for the C8 witness. -/
def sessNeg : Session :=
  { ID := "sidneg", Name := "n", Values := [], Options := { Path := "/", MaxAge := -1 }
    IsNew := false }

/-- C8 witness: the amended theorem at a concrete max-age −1 session. -/
theorem Save_nonpositive_maxage_deletes_witness :
    (storeBase.Save worldOk sessNeg).trace = [.del (storeBase.keyPrefix ++ sessNeg.ID)] ∧
    (∀ m, worldOk.redisDel (storeBase.keyPrefix ++ sessNeg.ID) = some m →
      (storeBase.Save worldOk sessNeg).err = some (.transport m) ∧
      (storeBase.Save worldOk sessNeg).cookies = []) ∧
    (worldOk.redisDel (storeBase.keyPrefix ++ sessNeg.ID) = none →
      (storeBase.Save worldOk sessNeg).err = none ∧
      (storeBase.Save worldOk sessNeg).cookies =
        [{ name := sessNeg.Name, value := "", path := sessNeg.Options.Path
           maxAge := sessNeg.Options.MaxAge }]) ∧
    (sessNeg.Options.MaxAge < 0 →
      ∀ c ∈ (storeBase.Save worldOk sessNeg).cookies, c.maxAge < 0) :=
  Save_nonpositive_maxage_deletes storeBase worldOk sessNeg (by decide)

/-! ### C2 -/

/-- The base store reconfigured to a 1-byte maximum record length. -/
def storeSmall : RediStore := storeBase.SetMaxLength 1

/-- An already-stamped payload whose serialization exceeds 1 byte. -/
def bigValues : GoKV :=
  [(.vStr "a", .vStr "hello"), (.vStr "created_time", .vStr "20260101120000")]

/-- The bytes the JSON serializer produces for `bigValues`. -/
def bigBytes : Bytes :=
  .json [("a", .str "hello"), ("created_time", .str "20260101120000")]

/-- An oversized session marked for deletion (max-age −1). -/
def sessBigDel : Session :=
  { ID := "sid2", Name := "n", Values := bigValues
    Options := { Path := "/", MaxAge := -1 }, IsNew := false }

/-- C2 counterexample: a session whose serialized payload exceeds the
nonzero maximum but whose max-age is −1 takes `Save`'s deletion branch:
no oversized error is returned and a (removal) cookie is attached to
the response. -/
theorem Save_oversized_deletion_branch_no_error :
    storeSmall.maxLength = 1 ∧
    storeSmall.serializer.Serialize sessBigDel.Values = .ok bigBytes ∧
    (Bytes.len bigBytes : Int) > storeSmall.maxLength ∧
    (storeSmall.Save worldOk sessBigDel).err = none ∧
    (storeSmall.Save worldOk sessBigDel).cookies ≠ [] := by decide

theorem saveTail_serialize_error (s : RediStore) (w : World) (sess : Session) (ct : GoVal)
    (e : GoErr) (h : s.serializer.Serialize sess.Values = .error e) :
    s.saveTail w sess ct = { err := some e, session := sess, trace := [], cookies := [] } := by
  unfold RediStore.saveTail RediStore.save
  simp only [h]

theorem saveTail_oversized (s : RediStore) (w : World) (sess : Session) (ct : GoVal) (b : Bytes)
    (hser : s.serializer.Serialize sess.Values = .ok b)
    (hmax : s.maxLength ≠ 0) (hlen : (Bytes.len b : Int) > s.maxLength) :
    s.saveTail w sess ct = { err := some .tooBig, session := sess, trace := [], cookies := [] } := by
  unfold RediStore.saveTail RediStore.save
  simp only [hser]
  rw [if_pos ⟨hmax, hlen⟩]

/-- C2 (amended): for a session with positive max-age (the branch that
serializes at all) whose payload serializes — both as it stands and
after the `created_time` stamping `Save` performs when that entry is
absent — to more bytes than the nonzero configured maximum, `Save`
fails with the oversized-record error, issues no redis command and
attaches no cookie; the session is left unchanged except that an empty
ID has been assigned and a missing `created_time` entry stamped before
the failure. -/
theorem Save_oversized_no_write_no_cookie (s : RediStore) (w : World) (sess : Session)
    (hage : 0 < sess.Options.MaxAge)
    (hmax : s.maxLength ≠ 0)
    (hser : ∀ vals : GoKV,
      (vals = sess.Values ∨
        vals = mapSet sess.Values (.vStr "created_time") (.vStr w.nowStamp)) →
      ∃ b, s.serializer.Serialize vals = .ok b ∧ (Bytes.len b : Int) > s.maxLength) :
    (s.Save w sess).err = some .tooBig ∧
    (s.Save w sess).trace = [] ∧
    (s.Save w sess).cookies = [] ∧
    ((s.Save w sess).session.Values = sess.Values ∨
      (s.Save w sess).session.Values =
        mapSet sess.Values (.vStr "created_time") (.vStr w.nowStamp)) ∧
    ((s.Save w sess).session.ID = sess.ID ∨
      (sess.ID = "" ∧ (s.Save w sess).session.ID = w.genID)) ∧
    (s.Save w sess).session.Name = sess.Name ∧
    (s.Save w sess).session.Options = sess.Options ∧
    (s.Save w sess).session.IsNew = sess.IsNew := by
  unfold RediStore.Save
  rw [if_neg (by omega : ¬ sess.Options.MaxAge ≤ 0)]
  by_cases hid : sess.ID = "" <;> [rw [if_pos hid]; rw [if_neg hid]] <;>
    rcases hct : mapGet sess.Values (.vStr "created_time") with _ | ct <;>
    simp only [hct]
  · obtain ⟨b, hb, hlen⟩ := hser _ (Or.inr rfl)
    rw [saveTail_oversized s w
      { sess with
          ID := w.genID,
          Values := mapSet sess.Values (.vStr "created_time") (.vStr w.nowStamp) }
      (.vStr w.nowStamp) b hb hmax hlen]
    exact ⟨rfl, rfl, rfl, .inr rfl, .inr ⟨hid, rfl⟩, rfl, rfl, rfl⟩
  · obtain ⟨b, hb, hlen⟩ := hser _ (Or.inl rfl)
    rw [saveTail_oversized s w { sess with ID := w.genID } ct b hb hmax hlen]
    exact ⟨rfl, rfl, rfl, .inl rfl, .inr ⟨hid, rfl⟩, rfl, rfl, rfl⟩
  · obtain ⟨b, hb, hlen⟩ := hser _ (Or.inr rfl)
    rw [saveTail_oversized s w
      { sess with Values := mapSet sess.Values (.vStr "created_time") (.vStr w.nowStamp) }
      (.vStr w.nowStamp) b hb hmax hlen]
    exact ⟨rfl, rfl, rfl, .inr rfl, .inl rfl, rfl, rfl, rfl⟩
  · obtain ⟨b, hb, hlen⟩ := hser _ (Or.inl rfl)
    rw [saveTail_oversized s w sess ct b hb hmax hlen]
    exact ⟨rfl, rfl, rfl, .inl rfl, .inl rfl, rfl, rfl, rfl⟩

/-- A fresh oversized session: empty ID, no `created_time` entry yet. -/
def sessBigFresh : Session :=
  { ID := "", Name := "n", Values := [(.vStr "a", .vStr "hello")]
    Options := { Path := "/", MaxAge := 100 }, IsNew := true }

/-- C2 witness: the amended theorem at a concrete fresh oversized
session — `Save` assigns the generated ID and stamps `created_time`,
then fails with the oversized error without writing. -/
theorem Save_oversized_no_write_no_cookie_witness :
    (storeSmall.Save worldOk sessBigFresh).err = some .tooBig ∧
    (storeSmall.Save worldOk sessBigFresh).trace = [] ∧
    (storeSmall.Save worldOk sessBigFresh).cookies = [] ∧
    ((storeSmall.Save worldOk sessBigFresh).session.Values = sessBigFresh.Values ∨
      (storeSmall.Save worldOk sessBigFresh).session.Values =
        mapSet sessBigFresh.Values (.vStr "created_time") (.vStr worldOk.nowStamp)) ∧
    ((storeSmall.Save worldOk sessBigFresh).session.ID = sessBigFresh.ID ∨
      (sessBigFresh.ID = "" ∧
        (storeSmall.Save worldOk sessBigFresh).session.ID = worldOk.genID)) ∧
    (storeSmall.Save worldOk sessBigFresh).session.Name = sessBigFresh.Name ∧
    (storeSmall.Save worldOk sessBigFresh).session.Options = sessBigFresh.Options ∧
    (storeSmall.Save worldOk sessBigFresh).session.IsNew = sessBigFresh.IsNew :=
  Save_oversized_no_write_no_cookie storeSmall worldOk sessBigFresh (by decide) (by decide)
    (by
      intro vals h
      rcases h with rfl | rfl
      · exact ⟨.json [("a", .str "hello")], by decide, by decide⟩
      · exact ⟨bigBytes, by decide, by decide⟩)

/-! ### C9 -/

/-- The session payload holds at least one key that is not a Go
string. -/
def hasNonStringKey (m : GoKV) : Prop := ∃ p ∈ m, p.1.isString = false

theorem hasNonStringKey_mapSet (c : String) (v : GoVal) :
    ∀ m : GoKV, hasNonStringKey m → hasNonStringKey (mapSet m (.vStr c) v) := by
  intro m
  induction m with
  | nil => rintro ⟨p, hp, _⟩; cases hp
  | cons q rest ih =>
    rintro ⟨p, hp, hps⟩
    rcases List.mem_cons.mp hp with rfl | hp
    · by_cases hq : p.1 = GoVal.vStr c
      · rw [hq] at hps; cases hps
      · exact ⟨p, by simp [mapSet, hq], hps⟩
    · by_cases hq : q.1 = GoVal.vStr c
      · exact ⟨p, by simp [mapSet, hq, hp], hps⟩
      · obtain ⟨p', hp', hps'⟩ := ih ⟨p, hp, hps⟩
        exact ⟨p', by simp [mapSet, hq]; right; exact hp', hps'⟩

theorem buildStringMap_nonstring_error :
    ∀ (m : GoKV) (acc : List (String × GoVal)), hasNonStringKey m →
      ∃ k, buildStringMap m acc = .error (.nonStringKey k) ∧ k.isString = false := by
  intro m
  induction m with
  | nil => rintro acc ⟨p, hp, _⟩; cases hp
  | cons q rest ih =>
    rintro acc ⟨p, hp, hps⟩
    match hq : q.1 with
    | .vStr ks =>
      rcases List.mem_cons.mp hp with rfl | hp
      · rw [hq] at hps; cases hps
      · obtain ⟨k, hk, hks⟩ := ih (mapSet acc ks q.2) ⟨p, hp, hps⟩
        refine ⟨k, ?_, hks⟩
        have : buildStringMap (q :: rest) acc = buildStringMap rest (mapSet acc ks q.2) := by
          rcases q with ⟨qk, qv⟩
          simp only at hq
          subst hq
          rfl
        rw [this, hk]
    | .vNull => exact ⟨q.1, by rcases q with ⟨qk, qv⟩; simp only at hq; subst hq; rfl, by rw [hq]; rfl⟩
    | .vBool b => exact ⟨q.1, by rcases q with ⟨qk, qv⟩; simp only at hq; subst hq; rfl, by rw [hq]; rfl⟩
    | .vInt n => exact ⟨q.1, by rcases q with ⟨qk, qv⟩; simp only at hq; subst hq; rfl, by rw [hq]; rfl⟩
    | .vFloat x => exact ⟨q.1, by rcases q with ⟨qk, qv⟩; simp only at hq; subst hq; rfl, by rw [hq]; rfl⟩

/-- A payload with a non-string key and no creation-timestamp entry. -/
def sessNK : Session :=
  { ID := "sid9", Name := "n", Values := [(.vInt 1, .vStr "v")]
    Options := { Path := "/", MaxAge := 100 }, IsNew := false }

/-- C9 counterexample: for a positive-max-age session with a non-string
key and no `created_time` entry, serialization does fail and no remote
write happens, but `Save` has already stamped `created_time` into the
in-memory payload before serializing, so the payload is not left
unchanged. -/
theorem Save_nonstring_key_payload_stamped :
    JSONSerializer.Serialize sessNK.Values = .error (.nonStringKey (.vInt 1)) ∧
    (storeBase.Save worldOk sessNK).trace = [] ∧
    (storeBase.Save worldOk sessNK).session.Values ≠ sessNK.Values := by decide

/-- C9 (amended): under the JSON serializer, a positive-max-age session
with a non-string payload key makes `Save` fail with the non-string-key
error, with no redis command and no cookie; the payload is unchanged
except that a missing `created_time` entry has been stamped before the
serializer rejected it. -/
theorem Save_nonstring_key_rejected (s : RediStore) (w : World) (sess : Session)
    (hjson : s.serializer = .json)
    (hage : 0 < sess.Options.MaxAge)
    (hnk : hasNonStringKey sess.Values) :
    (∃ k, (s.Save w sess).err = some (.nonStringKey k)) ∧
    (s.Save w sess).trace = [] ∧
    (s.Save w sess).cookies = [] ∧
    ((s.Save w sess).session.Values = sess.Values ∨
      (s.Save w sess).session.Values =
        mapSet sess.Values (.vStr "created_time") (.vStr w.nowStamp)) := by
  have hstamped : ∀ vals : GoKV, hasNonStringKey vals →
      ∃ k, s.serializer.Serialize vals = .error (.nonStringKey k) := by
    intro vals hv
    obtain ⟨k, hk, _⟩ := buildStringMap_nonstring_error vals [] hv
    refine ⟨k, ?_⟩
    rw [hjson]
    show (buildStringMap vals []).map JSONSerializer.SerializeData = _
    rw [hk]
    rfl
  unfold RediStore.Save
  rw [if_neg (by omega : ¬ sess.Options.MaxAge ≤ 0)]
  by_cases hid : sess.ID = "" <;> [rw [if_pos hid]; rw [if_neg hid]] <;>
    rcases hct : mapGet sess.Values (.vStr "created_time") with _ | ct <;>
    simp only [hct]
  · obtain ⟨k, hk⟩ := hstamped _ (hasNonStringKey_mapSet "created_time" (.vStr w.nowStamp) _ hnk)
    rw [saveTail_serialize_error s w
      { sess with
          ID := w.genID,
          Values := mapSet sess.Values (.vStr "created_time") (.vStr w.nowStamp) }
      (.vStr w.nowStamp) _ hk]
    exact ⟨⟨k, rfl⟩, rfl, rfl, .inr rfl⟩
  · obtain ⟨k, hk⟩ := hstamped sess.Values hnk
    rw [saveTail_serialize_error s w { sess with ID := w.genID } ct _ hk]
    exact ⟨⟨k, rfl⟩, rfl, rfl, .inl rfl⟩
  · obtain ⟨k, hk⟩ := hstamped _ (hasNonStringKey_mapSet "created_time" (.vStr w.nowStamp) _ hnk)
    rw [saveTail_serialize_error s w
      { sess with Values := mapSet sess.Values (.vStr "created_time") (.vStr w.nowStamp) }
      (.vStr w.nowStamp) _ hk]
    exact ⟨⟨k, rfl⟩, rfl, rfl, .inr rfl⟩
  · obtain ⟨k, hk⟩ := hstamped sess.Values hnk
    rw [saveTail_serialize_error s w sess ct _ hk]
    exact ⟨⟨k, rfl⟩, rfl, rfl, .inl rfl⟩

/-- C9 witness: the amended theorem at the concrete non-string-key
session. -/
theorem Save_nonstring_key_rejected_witness :
    (∃ k, (storeBase.Save worldOk sessNK).err = some (.nonStringKey k)) ∧
    (storeBase.Save worldOk sessNK).trace = [] ∧
    (storeBase.Save worldOk sessNK).cookies = [] ∧
    ((storeBase.Save worldOk sessNK).session.Values = sessNK.Values ∨
      (storeBase.Save worldOk sessNK).session.Values =
        mapSet sessNK.Values (.vStr "created_time") (.vStr worldOk.nowStamp)) :=
  Save_nonstring_key_rejected storeBase worldOk sessNK rfl (by decide)
    ⟨(.vInt 1, .vStr "v"), by decide, rfl⟩

/-! ### C7 -/

theorem decodeMulti_all_fail (w : World) (name cv : String) :
    ∀ L : List Codec, (∀ c ∈ L, ∃ m, w.decodeOne c name cv = .error m) →
      ∃ e, decodeMulti w name cv L = .error e := by
  intro L
  induction L with
  | nil => exact fun _ => ⟨_, rfl⟩
  | cons c rest ih =>
    intro h
    obtain ⟨m, hm⟩ := h c (List.mem_cons_self c rest)
    obtain ⟨e, he⟩ := ih fun c' hc' => h c' (List.mem_cons_of_mem c hc')
    refine ⟨e, ?_⟩
    unfold decodeMulti
    rw [hm]
    exact he

/-- C7: when the request's cookie decodes against no codec in the codec
set, `New` still returns a usable fresh session — empty payload,
`IsNew = true`, no ID — and never touches redis; the decode failure is
reported, not escalated into the absence of a session. -/
theorem New_decode_failure_fresh_empty_session (s : RediStore) (w : World) (r : Request)
    (name cv : String)
    (hc : r.cookie name = some cv)
    (hall : ∀ c ∈ s.Codecs, ∃ m, w.decodeOne c name cv = .error m) :
    (s.New w r name).session.Values = [] ∧
    (s.New w r name).session.IsNew = true ∧
    (s.New w r name).session.ID = "" ∧
    (s.New w r name).session.Options = s.Options ∧
    (s.New w r name).trace = [] := by
  obtain ⟨e, he⟩ := decodeMulti_all_fail w name cv s.Codecs hall
  simp [RediStore.New, hc, he]

/-- A request carrying a cookie minted with a rotated-out codec. -/
def reqOldCookie : Request := { cookie := fun _ => some "oldtoken" }

/-- C7 witness: the theorem at a concrete store whose only codec rejects
the presented cookie. -/
theorem New_decode_failure_fresh_empty_session_witness :
    (storeBase.New worldOk reqOldCookie "n").session.Values = [] ∧
    (storeBase.New worldOk reqOldCookie "n").session.IsNew = true ∧
    (storeBase.New worldOk reqOldCookie "n").session.ID = "" ∧
    (storeBase.New worldOk reqOldCookie "n").session.Options = storeBase.Options ∧
    (storeBase.New worldOk reqOldCookie "n").trace = [] :=
  New_decode_failure_fresh_empty_session storeBase worldOk reqOldCookie "n" "oldtoken" rfl
    fun _ _ => ⟨"securecookie: the value is not valid", rfl⟩

/-! ### C1 -/

/-- C1: when the cookie decodes and the remote record loads and
deserializes, but the record's `created_time` entry differs from the
envelope's `CreateTime`, `New` returns an empty payload with
`IsNew = true` (and no error), regardless of what the loaded payload
contained. -/
theorem New_stale_created_time_resets_session (s : RediStore) (w : World) (r : Request)
    (name cv : String) (info : SessionInfo) (b : Bytes) (vals : GoKV)
    (hc : r.cookie name = some cv)
    (hd : decodeMulti w name cv s.Codecs = .ok info)
    (hg : w.redisGet (s.keyPrefix ++ info.ID) = .found b)
    (hds : s.serializer.Deserialize b [] = .ok vals)
    (hne : (mapGet vals (.vStr "created_time")).getD .vNull ≠ info.CreateTime) :
    (s.New w r name).session.Values = [] ∧
    (s.New w r name).session.IsNew = true ∧
    (s.New w r name).err = none := by
  simp [RediStore.New, hc, hd, RediStore.load, hg, hds, hne]

/-- A world whose cookie decodes to an envelope with creation timestamp
20250101000000 while the remote record stores 20260101120000. -/
def worldStale : World :=
  { worldOk with
      decodeOne := fun _ _ _ => .ok { ID := "id1", CreateTime := .vStr "20250101000000" },
      redisGet := fun _ =>
        .found (.json [("created_time", .str "20260101120000"), ("user", .str "alice")]) }

/-- A request presenting the stale cookie. -/
def reqStale : Request := { cookie := fun _ => some "tok" }

/-- The payload the stale record deserializes to. -/
def valsStale : GoKV :=
  [(.vStr "created_time", .vStr "20260101120000"), (.vStr "user", .vStr "alice")]

/-- C1 witness: the theorem at a concrete stale-cookie world. -/
theorem New_stale_created_time_resets_session_witness :
    (storeBase.New worldStale reqStale "n").session.Values = [] ∧
    (storeBase.New worldStale reqStale "n").session.IsNew = true ∧
    (storeBase.New worldStale reqStale "n").err = none :=
  New_stale_created_time_resets_session storeBase worldStale reqStale "n" "tok"
    { ID := "id1", CreateTime := .vStr "20250101000000" }
    (.json [("created_time", .str "20260101120000"), ("user", .str "alice")])
    valsStale rfl rfl rfl (by decide) (by decide)

/-! ### C6 -/

theorem unmarshal_marshal (v : GoVal) : unmarshalVal (marshalVal v) = widen v := by
  cases v <;> rfl

theorem vStr_injective : Function.Injective GoVal.vStr := fun a b h => by
  injection h

/-- Keys survive a value-wise map of an association list. -/
theorem keys_map_values {β γ : Type} (f : β → γ) (l : List (String × β)) :
    (l.map fun p => (p.1, f p.2)).map Prod.fst = l.map Prod.fst := by
  induction l with
  | nil => rfl
  | cons p rest ih => simp [ih]

/-- A fold of Go map writes keeps distinct keys distinct. -/
theorem foldl_mapSet_nodup {β κ : Type} [DecidableEq κ] (g : String → κ) :
    ∀ (l : List (String × β)) (init : List (κ × β)), (init.map Prod.fst).Nodup →
      (((l.foldl (fun m p => mapSet m (g p.1) p.2) init).map Prod.fst)).Nodup := by
  intro l
  induction l with
  | nil => exact fun init h => h
  | cons p rest ih =>
    intro init h
    exact ih (mapSet init (g p.1) p.2) (keys_nodup_mapSet init (g p.1) p.2 h)

/-- The string-keyed copy `JSONSerializer.Serialize` builds binds
exactly the keys of a distinct-keyed payload, with the same values. -/
theorem buildStringMap_ok_notfound :
    ∀ (m : GoKV) (acc sm : List (String × GoVal)) (ks : String),
      mapGet m (.vStr ks) = none →
      buildStringMap m acc = .ok sm →
      mapGet sm ks = mapGet acc ks := by
  intro m
  induction m with
  | nil =>
    intro acc sm ks _ hb
    injection hb with hb
    rw [← hb]
  | cons q rest ih =>
    rcases q with ⟨k, v⟩
    intro acc sm ks hget hb
    match k, hb with
    | .vStr ks0, hb =>
      have hne : ¬ (GoVal.vStr ks0 = GoVal.vStr ks) := fun h => by
        rw [mapGet, if_pos h] at hget
        cases hget
      have hne' : ks0 ≠ ks := fun h => hne (by rw [h])
      rw [mapGet, if_neg hne] at hget
      rw [ih (mapSet acc ks0 v) sm ks hget hb,
        mapGet_mapSet_ne acc ks0 ks v hne']

theorem buildStringMap_ok_found :
    ∀ (m : GoKV) (acc sm : List (String × GoVal)) (ks : String) (v : GoVal),
      (m.map Prod.fst).Nodup →
      mapGet m (.vStr ks) = some v →
      buildStringMap m acc = .ok sm →
      mapGet sm ks = some v := by
  intro m
  induction m with
  | nil => intro _ _ _ _ _ hget _; cases hget
  | cons q rest ih =>
    rcases q with ⟨k, w'⟩
    intro acc sm ks v hnd hget hb
    simp only [List.map_cons, List.nodup_cons] at hnd
    match k, hb, hget, hnd with
    | .vStr ks0, hb, hget, hnd =>
      by_cases hk : ks0 = ks
      · subst hk
        rw [mapGet, if_pos rfl] at hget
        injection hget with hveq
        have hrest : mapGet rest (GoVal.vStr ks0) = none := by
          refine mapGet_eq_none rest (GoVal.vStr ks0) fun p hp h => ?_
          exact hnd.1 (h ▸ List.mem_map_of_mem Prod.fst hp)
        rw [buildStringMap_ok_notfound rest (mapSet acc ks0 w') sm ks0 hrest hb,
          mapGet_mapSet_self, hveq]
      · have hne : ¬ (GoVal.vStr ks0 = GoVal.vStr ks) := fun h => hk (vStr_injective h)
        rw [mapGet, if_neg hne] at hget
        exact ih (mapSet acc ks0 w') sm ks v hnd.2 hget hb

theorem buildStringMap_ok_nodup :
    ∀ (m : GoKV) (acc sm : List (String × GoVal)),
      (acc.map Prod.fst).Nodup → buildStringMap m acc = .ok sm →
      (sm.map Prod.fst).Nodup := by
  intro m
  induction m with
  | nil =>
    intro acc sm h hb
    injection hb with hb
    rw [← hb]
    exact h
  | cons q rest ih =>
    rcases q with ⟨k, v⟩
    intro acc sm h hb
    match k, hb with
    | .vStr ks0, hb =>
      exact ih (mapSet acc ks0 v) sm (keys_nodup_mapSet acc ks0 v h) hb

/-- The lookup form of `foldl_mapSet_lookup` specialized to the
untransformed string keys of `JSONSerializer.DeserializeData`. -/
theorem foldl_mapSet_lookup_id {β : Type} (l : List (String × β)) (init : List (String × β))
    (ks : String) (hnd : (l.map Prod.fst).Nodup) :
    mapGet (l.foldl (fun m p => mapSet m p.1 p.2) init) ks =
      ((mapGet l ks).rec (mapGet init ks) fun v => some v : Option β) := by
  simpa using foldl_mapSet_lookup (fun x => x) (fun a b h => h) l init ks hnd

theorem mapGet_foldl_id {β : Type} (l : List (String × β)) (ks : String)
    (hnd : (l.map Prod.fst).Nodup) :
    mapGet (l.foldl (fun m p => mapSet m p.1 p.2) []) ks = mapGet l ks := by
  rw [foldl_mapSet_lookup_id l [] ks hnd]
  rcases mapGet l ks <;> rfl

theorem mapGet_foldl_vstr (l : List (String × GoVal)) (ks : String)
    (hnd : (l.map Prod.fst).Nodup) :
    mapGet (l.foldl (fun vs p => mapSet vs (GoVal.vStr p.1) p.2) []) (GoVal.vStr ks) =
      mapGet l ks := by
  rw [foldl_mapSet_lookup GoVal.vStr vStr_injective l [] ks hnd]
  rcases mapGet l ks <;> rfl

/-- What `JSONSerializer.Deserialize` recovers from the marshalling of a
distinct-keyed string map: the same map with widened values, binding no
non-string key. -/
theorem json_deser_of_marshalled (sm : List (String × GoVal))
    (hnd : (sm.map Prod.fst).Nodup) :
    ∃ vals, JSONSerializer.Deserialize (JSONSerializer.SerializeData sm) [] = .ok vals ∧
      (∀ ks : String, mapGet vals (.vStr ks) = (mapGet sm ks).map widen) ∧
      (∀ k : GoVal, k.isString = false → mapGet vals k = none) := by
  have hfold : ((sm.map fun p => (p.1, marshalVal p.2)).foldl
      (fun mm p => mapSet mm p.1 (unmarshalVal p.2)) []) =
      ((sm.map fun p => (p.1, widen p.2)).foldl (fun mm p => mapSet mm p.1 p.2) []) := by
    simp only [List.foldl_map, unmarshal_marshal]
  have hwnd : ((sm.map fun p => (p.1, widen p.2)).map Prod.fst).Nodup := by
    rw [keys_map_values]
    exact hnd
  have hdmnd : ((((sm.map fun p => (p.1, widen p.2)).foldl
      (fun mm p => mapSet mm p.1 p.2) [])).map Prod.fst).Nodup :=
    foldl_mapSet_nodup (fun x => x) (sm.map fun p => (p.1, widen p.2)) [] (by simp)
  refine ⟨_, rfl, fun ks => ?_, fun k hk => ?_⟩
  · show mapGet (((sm.map fun p => (p.1, marshalVal p.2)).foldl
        (fun mm p => mapSet mm p.1 (unmarshalVal p.2)) []).foldl
        (fun vs p => mapSet vs (GoVal.vStr p.1) p.2) []) (GoVal.vStr ks) = _
    rw [hfold, mapGet_foldl_vstr _ ks hdmnd,
      mapGet_foldl_id _ ks hwnd, mapGet_map_values]
  · show mapGet (((sm.map fun p => (p.1, marshalVal p.2)).foldl
        (fun mm p => mapSet mm p.1 (unmarshalVal p.2)) []).foldl
        (fun vs p => mapSet vs (GoVal.vStr p.1) p.2) []) k = none
    refine foldl_mapSet_lookup_outside GoVal.vStr _ [] k fun x h => ?_
    rw [← h] at hk
    cases hk

/-- C6: serializer round trip.  Under the JSON serializer, a payload
with distinct keys that serializes (all keys are strings) deserializes
into a fresh session as the same mapping up to JSON type-widening,
binding no non-string key; under the gob serializer, serialization
always succeeds and deserialization restores the payload exactly,
non-string keys included. -/
theorem serializer_roundtrip (m : GoKV) (hnd : (m.map Prod.fst).Nodup) :
    (∀ b, SessionSerializer.json.Serialize m = .ok b →
      ∃ vals, SessionSerializer.json.Deserialize b [] = .ok vals ∧
        (∀ ks : String, mapGet vals (.vStr ks) = (mapGet m (.vStr ks)).map widen) ∧
        (∀ k : GoVal, k.isString = false → mapGet vals k = none)) ∧
    (SessionSerializer.gob.Serialize m = .ok (.gob m) ∧
      SessionSerializer.gob.Deserialize (.gob m) [] = .ok m) := by
  refine ⟨?_, rfl, rfl⟩
  intro b hser
  rcases hbm : buildStringMap m [] with e | sm <;>
    rw [show SessionSerializer.json.Serialize m = (buildStringMap m []).map
      JSONSerializer.SerializeData from rfl, hbm] at hser
  · cases hser
  · injection hser with hser
    subst hser
    have hsmnd : (sm.map Prod.fst).Nodup := buildStringMap_ok_nodup m [] sm (by simp) hbm
    obtain ⟨vals, hv, hlook, hnone⟩ := json_deser_of_marshalled sm hsmnd
    refine ⟨vals, hv, fun ks => ?_, hnone⟩
    rw [hlook ks]
    rcases hg : mapGet m (.vStr ks) with _ | v
    · rw [buildStringMap_ok_notfound m [] sm ks hg hbm]
      rfl
    · rw [buildStringMap_ok_found m [] sm ks v hnd hg hbm]

/-- A one-entry integer payload, for the C6 witness. -/
def mRound : GoKV := [(.vStr "a", .vInt 3)]

/-- C6 witness: the round-trip theorem at a concrete payload holding an
integer (which the JSON variant widens to a float and the gob variant
preserves exactly). -/
theorem serializer_roundtrip_witness :
    (∀ b, SessionSerializer.json.Serialize mRound = .ok b →
      ∃ vals, SessionSerializer.json.Deserialize b [] = .ok vals ∧
        (∀ ks : String, mapGet vals (.vStr ks) = (mapGet mRound (.vStr ks)).map widen) ∧
        (∀ k : GoVal, k.isString = false → mapGet vals k = none)) ∧
    (SessionSerializer.gob.Serialize mRound = .ok (.gob mRound) ∧
      SessionSerializer.gob.Deserialize (.gob mRound) [] = .ok mRound) :=
  serializer_roundtrip mRound (by decide)

end Redistore
